import Mathlib

/-!
Verification development for the `pymps` polygonal Dirichlet-Laplacian
eigenproblem engine (`pymps/mps.py`, with quadrature helpers in
`pymps/quad.py`).

The dense linear-algebra kernel (`scipy.linalg.qr`, `scipy.linalg.svd`,
`pygsvd.gsvd`, `scipy.linalg.solve_triangular`, `scipy.linalg.lstsq`) and
the Fourier-Bessel basis evaluator are external collaborators of the
repository; they are embedded as oracle records (`LinAlg`, the `basis`
field of `PolygonEVP`, `LocOracles`) whose documented output contracts
(descending singular values, non-increasing pivoted-QR diagonal
magnitudes, bracketed minima) appear as explicit hypotheses of the
theorems.  Machine floats are idealised as `ℚ` (for the matrix engine)
and `ℝ` (for the eigenvalue locator's Weyl-law formulas, which involve
`π` and square roots).
-/

namespace Pymps

/-- A dense real matrix, idealised over `ℚ`: a (row, column) entry
function together with explicit dimensions, mirroring a numpy 2-D
array. -/
structure Mat where
  rows : ℕ
  cols : ℕ
  entry : ℕ → ℕ → ℚ

/-- Python exceptions raised by the engine.  `zeroMultiplicity` models
the `ValueError` f-string of `mps.py` lines 311/331/386, which
interpolates the offending `lambda_`, the achieved smallest singular
value `s[-1]` (an `Option` because the GSVD path can report `+inf`
there) and the `mtol` in force; `nonFiniteSVD` models the
`ValueError(f'non-finite SVD for lam={lambda_}')` of line 132. -/
inductive PyErr where
  | valueError (msg : String)
  | indexError
  | attributeError (attr : String)
  | nameError (name : String)
  | unboundLocalError (name : String)
  | zeroMultiplicity (lam : ℚ) (sigma : Option ℚ) (mtol : ℚ)
  | nonFiniteSVD (lam : ℚ)
deriving DecidableEq

/-- numpy slicing `M[:r, :c]`. -/
def Mat.slice (M : Mat) (r c : ℕ) : Mat :=
  ⟨min M.rows r, min M.cols c, M.entry⟩

/-- numpy slicing `M[:, :c]`. -/
def Mat.colSlice (M : Mat) (c : ℕ) : Mat :=
  ⟨M.rows, min M.cols c, M.entry⟩

/-- numpy slicing `M[r:, :]`. -/
def Mat.dropRows (M : Mat) (r : ℕ) : Mat :=
  ⟨M.rows - r, M.cols, fun i j => M.entry (i + r) j⟩

/-- Matrix transpose `M.T`. -/
def Mat.transpose (M : Mat) : Mat :=
  ⟨M.cols, M.rows, fun i j => M.entry j i⟩

/-- Matrix product `A @ B`. -/
def Mat.mul (A B : Mat) : Mat :=
  ⟨A.rows, B.cols, fun i j => ((List.range A.cols).map fun l => A.entry i l * B.entry l j).sum⟩

/-- Row-wise broadcast product `w * A` where `w` is an `(m, 1)` column of
square-rooted quadrature weights (`mps.py` line 81). -/
def rowScale (w A : Mat) : Mat :=
  ⟨A.rows, A.cols, fun i j => w.entry i 0 * A.entry i j⟩

/-- Row-wise broadcast quotient `A / w` (`mps.py` line 388). -/
def rowDiv (A w : Mat) : Mat :=
  ⟨A.rows, A.cols, fun i j => A.entry i j / w.entry i 0⟩

/-- `np.abs(np.diag(R))`: absolute values of the main diagonal. -/
def diag_abs (R : Mat) : List ℚ :=
  (List.range (min R.rows R.cols)).map fun i => |R.entry i i|

/-- `Vh[-m:].T`: the last `m` rows of `Vh`, transposed
(`mps.py` line 315). -/
def lastRowsT (Vh : Mat) (m : ℕ) : Mat :=
  ⟨Vh.cols, m, fun i j => Vh.entry (Vh.rows - m + j) i⟩

/-- `np.eye(n)[:, -m:]` (`mps.py` line 334). -/
def eyeLast (n m : ℕ) : Mat :=
  ⟨n, m, fun i j => if i = n - m + j then 1 else 0⟩

/-- numpy fancy row indexing `C[p]`. -/
def permuteRows (C : Mat) (p : List ℕ) : Mat :=
  ⟨p.length, C.cols, fun i j => C.entry (p.getD i 0) j⟩

/-- Modelled from the spec: `invert_permutation` lives in `pymps/utils.py`,
which is not part of the sources; section 4.2 of the spec describes its
role as producing the inverse of the QR column permutation used to
un-permute the coefficient rows.  `p.indexOf i` is the position at which
`p` maps to `i`, which is exactly the inverse permutation. -/
def invert_permutation (p : List ℕ) : List ℕ :=
  (List.range p.length).map fun i => p.indexOf i

/-- `np.divide(C, S, out=np.full(C.shape, np.inf), where=(S != 0))`
(`mps.py` lines 163/326): elementwise quotient with `+inf` (modelled as
`none`) exactly where `S` vanishes. -/
def divInf (C S : List ℚ) : List (Option ℚ) :=
  List.zipWith (fun c s => if s = 0 then none else some (c / s)) C S

/-- Comparison of a possibly-infinite quotient against a finite
tolerance: `+inf < mtol` is false. -/
def ltInf (x : Option ℚ) (mtol : ℚ) : Bool :=
  match x with
  | none => false
  | some q => decide (q < mtol)

/-- The dense linear-algebra kernel consumed by `mps.py`
(scipy.linalg / pygsvd), embedded as an oracle record.  `qr_piv` is
`la.qr(·, mode='economic', pivoting=True)` returning `(Q, R, P)`;
`qr` is the unpivoted economy factorization; `svdvals` is
`la.svd(·, compute_uv=False)` (`none` models a LAPACK convergence
failure on non-finite input, which scipy surfaces as an exception);
`svd` is the full `la.svd`; `solve_triangular` and `lstsq` are the
corresponding scipy solvers, and `gsvd` is `pygsvd.gsvd` returning
`(C, S, X)`. -/
structure LinAlg where
  qr_piv : Mat → Mat × Mat × List ℕ
  qr : Mat → Mat × Mat
  svdvals : Mat → Option (List ℚ)
  svd : Mat → Option (Mat × List ℚ × Mat)
  solve_triangular : Mat → Mat → Mat
  lstsq : Mat → Mat → Mat
  gsvd : Mat → Mat → List ℚ × List ℚ × Mat

/-- LAPACK contract for singular values: whenever the SVD converges, the
returned values are non-negative and sorted in descending order. -/
def SvdvalsDescending (la : LinAlg) : Prop :=
  ∀ M s, la.svdvals M = some s → s.Sorted (· ≥ ·) ∧ ∀ x ∈ s, 0 ≤ x

/-- LAPACK contract for the full SVD: the singular-value list is
non-negative and sorted in descending order. -/
def SvdDescending (la : LinAlg) : Prop :=
  ∀ M U s Vh, la.svd M = some (U, s, Vh) → s.Sorted (· ≥ ·) ∧ ∀ x ∈ s, 0 ≤ x

/-- LAPACK contract for column-pivoted QR: the magnitudes of the diagonal
of `R` are non-increasing, so the leading one is the largest. -/
def DiagDescending (la : LinAlg) : Prop :=
  ∀ A, (diag_abs (la.qr_piv A).2.1).Sorted (· ≥ ·)

/-- A problem instance (`PolygonEVP.__init__`).  `basis` is the external
Fourier-Bessel basis evaluated at the default (boundary-first) points;
`m_b` is `boundary_pts.shape[0]`.  The quadrature attributes `weights`,
`n_basis` and `bdry_nodes` are set by the constructor only when
`bdry_nodes` is supplied (`mps.py` lines 73-83); `none` models the
attribute being absent from the object. -/
structure PolygonEVP where
  basis : ℚ → Mat
  m_b : ℕ
  n_vert : ℕ
  rtol : ℚ := 0
  mtol : ℚ := 1 / 10000
  weights : Option Mat := none
  n_basis : Option (ℚ → Mat) := none
  bdry_nodes : Option ℕ := none

/-- Python attribute access: reading an attribute the constructor never
set raises `AttributeError`. -/
def getattr {β : Type} (o : Option β) (name : String) : Except PyErr β :=
  match o with
  | some v => .ok v
  | none => .error (.attributeError name)

/-- The QR / rank-truncation stage shared by `subspace_sines` and
`weighted_subspace_sines` (`mps.py` lines 119-126 and 141-148): with
pivoting, `cutoff = (r > r[0]*rtol).sum()` for `r = np.abs(np.diag(R))`
(the `IndexError` branch mirrors numpy's behaviour of `r[0]` on an empty
diagonal); without pivoting, `cutoff` is the full column count of `Q`. -/
def qr_trunc (la : LinAlg) (A : Mat) (rtol : ℚ) (pivot : Bool) : Except PyErr (Mat × ℕ) :=
  if pivot then
    let QRP := la.qr_piv A
    match diag_abs QRP.2.1 with
    | [] => .error .indexError
    | r0 :: rtail => .ok (QRP.1, (r0 :: rtail).countP fun x => r0 * rtol < x)
  else
    let QR := la.qr A
    .ok (QR.1, QR.1.cols)

/-- `PolygonEVP.subspace_sines` (`mps.py` lines 113-132): the singular
values of `Q[:m_b, :cutoff]`, reversed from descending to ascending
order; a LAPACK convergence failure is re-raised as
`ValueError(f'non-finite SVD for lam={lambda_}')`. -/
def subspace_sines (la : LinAlg) (st : PolygonEVP) (lam : ℚ) (rtolOpt : Option ℚ)
    (pivot : Bool) : Except PyErr (List ℚ) :=
  let rtol := rtolOpt.getD st.rtol
  let A := st.basis lam
  match qr_trunc la A rtol pivot with
  | .error e => .error e
  | .ok Qc =>
    match la.svdvals (Qc.1.slice st.m_b Qc.2) with
    | some s => .ok s.reverse
    | none => .error (.nonFiniteSVD lam)

/-- `PolygonEVP.weighted_subspace_sines` (`mps.py` lines 134-154):
identical to `subspace_sines` but on the quadrature-weighted basis
matrix `self.weights * self.n_basis(lambda_)` with
`m_b = len(self.bdry_nodes)`; each `self.` read of an attribute the
constructor may not have set goes through `getattr`, in the evaluation
order of line 139 (`self.weights` first). -/
def weighted_subspace_sines (la : LinAlg) (st : PolygonEVP) (lam : ℚ) (rtolOpt : Option ℚ)
    (pivot : Bool) : Except PyErr (List ℚ) :=
  let rtol := rtolOpt.getD st.rtol
  match getattr st.weights "weights" with
  | .error e => .error e
  | .ok w =>
    match getattr st.n_basis "n_basis" with
    | .error e => .error e
    | .ok nb =>
      let A := rowScale w (nb lam)
      match getattr st.bdry_nodes "bdry_nodes" with
      | .error e => .error e
      | .ok mb =>
        match qr_trunc la A rtol pivot with
        | .error e => .error e
        | .ok Qc =>
          match la.svdvals (Qc.1.slice mb Qc.2) with
          | some s => .ok s.reverse
          | none => .error (.nonFiniteSVD lam)

/-- `PolygonEVP.eigenbasis_coef` (`mps.py` lines 288-316): pivoted QR of
the weighted basis matrix, rank truncation by `rtol`, SVD of the
boundary-row block of `Q`, multiplicity count `(s < mtol).sum()`, and
either the zero-multiplicity `ValueError` (whose f-string evaluates
`s[-1]`, hence the `IndexError` guard for an empty `s`) or the
coefficient matrix `C[Pinv]` with one column per near-null direction. -/
def eigenbasis_coef (la : LinAlg) (st : PolygonEVP) (lam : ℚ) (rtolOpt mtolOpt : Option ℚ) :
    Except PyErr Mat :=
  let rtol := rtolOpt.getD st.rtol
  let mtol := mtolOpt.getD st.mtol
  match getattr st.weights "weights" with
  | .error e => .error e
  | .ok w =>
    match getattr st.n_basis "n_basis" with
    | .error e => .error e
    | .ok nb =>
      let A := rowScale w (nb lam)
      match getattr st.bdry_nodes "bdry_nodes" with
      | .error e => .error e
      | .ok mb =>
        let QRP := la.qr_piv A
        let Pinv := invert_permutation QRP.2.2
        match diag_abs QRP.2.1 with
        | [] => .error .indexError
        | r0 :: rtail =>
          let cutoff := (r0 :: rtail).countP fun x => r0 * rtol < x
          match la.svd (QRP.1.slice mb cutoff) with
          | none => .error (.valueError "non-finite SVD")
          | some (_, s, Vh) =>
            let mult := s.countP fun x => x < mtol
            if mult = 0 then
              match s.getLast? with
              | none => .error .indexError
              | some slast => .error (.zeroMultiplicity lam (some slast) mtol)
            else
              let sol := la.solve_triangular (QRP.2.1.slice cutoff cutoff) (lastRowsT Vh mult)
              let C : Mat := ⟨A.cols, mult, fun i j => if i < cutoff then sol.entry i j else 0⟩
              .ok (permuteRows C Pinv)

/-- `PolygonEVP.gsvd_eigenbasis_coef` (`mps.py` lines 318-334): GSVD of
the boundary block against the interior block of the weighted basis
matrix, generalized singular quotients `C/S` with `+inf` where `S = 0`,
the same multiplicity test, and a least-squares solve against the last
`mult` columns of the identity. -/
def gsvd_eigenbasis_coef (la : LinAlg) (st : PolygonEVP) (lam : ℚ) (mtolOpt : Option ℚ) :
    Except PyErr Mat :=
  let mtol := mtolOpt.getD st.mtol
  match getattr st.weights "weights" with
  | .error e => .error e
  | .ok w =>
    match getattr st.n_basis "n_basis" with
    | .error e => .error e
    | .ok nb =>
      let A := rowScale w (nb lam)
      match getattr st.bdry_nodes "bdry_nodes" with
      | .error e => .error e
      | .ok mb =>
        let CSX := la.gsvd (A.slice mb A.cols) (A.dropRows mb)
        let s := divInf CSX.1 CSX.2.1
        let mult := s.countP fun x => ltInf x mtol
        if mult = 0 then
          match s.getLast? with
          | none => .error .indexError
          | some slast => .error (.zeroMultiplicity lam slast mtol)
        else
          .ok (la.lstsq CSX.2.2.transpose (eyeLast CSX.2.2.cols mult))

/-- `PolygonEVP.eigenbasis_node_eval` (`mps.py` lines 363-388): same
rank/multiplicity logic as `eigenbasis_coef`, returning the eigenbasis
values at the quadrature nodes, `(Q[:, :cutoff] @ Vh[-mult:].T) /
self.weights`. -/
def eigenbasis_node_eval (la : LinAlg) (st : PolygonEVP) (lam : ℚ) (rtolOpt mtolOpt : Option ℚ) :
    Except PyErr Mat :=
  let rtol := rtolOpt.getD st.rtol
  let mtol := mtolOpt.getD st.mtol
  match getattr st.weights "weights" with
  | .error e => .error e
  | .ok w =>
    match getattr st.n_basis "n_basis" with
    | .error e => .error e
    | .ok nb =>
      let A := rowScale w (nb lam)
      match getattr st.bdry_nodes "bdry_nodes" with
      | .error e => .error e
      | .ok mb =>
        let QRP := la.qr_piv A
        match diag_abs QRP.2.1 with
        | [] => .error .indexError
        | r0 :: rtail =>
          let cutoff := (r0 :: rtail).countP fun x => r0 * rtol < x
          match la.svd (QRP.1.slice mb cutoff) with
          | none => .error (.valueError "non-finite SVD")
          | some (_, s, Vh) =>
            let mult := s.countP fun x => x < mtol
            if mult = 0 then
              match s.getLast? with
              | none => .error .indexError
              | some slast => .error (.zeroMultiplicity lam (some slast) mtol)
            else
              .ok (rowDiv ((QRP.1.colSlice cutoff).mul (lastRowsT Vh mult)) w)

/-- `PolygonEVP.gsvd_subspace_tans` (`mps.py` lines 156-163).  Line 159
reads `if rtol is None: rtol = self.rtol`, but the method has no `rtol`
parameter; because `rtol` is assigned inside the function body, Python
compiles it as a local variable, and reading it in the condition raises
`UnboundLocalError` on every call, before the GSVD of lines 160-163 can
run. -/
def gsvd_subspace_tans (_la : LinAlg) (_st : PolygonEVP) (_lam : ℚ) :
    Except PyErr (List (Option ℚ)) :=
  .error (.unboundLocalError "rtol")

/-- The computation of `mps.py` lines 160-163, which is unreachable in
the source because line 159 raises first: the ascending tangents
`C/S` (with `+inf` where `S = 0`) of the GSVD of the boundary rows
against the interior rows. -/
def gsvd_subspace_tans_unreachable_body (la : LinAlg) (st : PolygonEVP) (lam : ℚ) :
    List (Option ℚ) :=
  let A := st.basis lam
  let CSX := la.gsvd (A.slice st.m_b A.cols) (A.dropRows st.m_b)
  (divInf CSX.1 CSX.2.1).reverse

/-- `PolygonEVP.dlambda` (`mps.py` lines 455-487).  After the direction
checks of lines 459-464, line 467 evaluates
`self.sigma(lambda_, rtol, btol, mult_check=True)`; `btol` is bound
nowhere (not a parameter, not assigned, not a global), so evaluating the
argument list raises `NameError: name 'btol' is not defined` before the
repeated-eigenvalue check of lines 470-471 can run.  The error strings
of lines 460/464 are f-strings; their interpolated values are omitted
here. -/
def dlambda (st : PolygonEVP) (_lam : ℚ) (dx dy : Option (List ℚ)) (_n : ℕ)
    (_rtolOpt _mtolOpt : Option ℚ) : Except PyErr (List ℚ × List ℚ) :=
  if dx.isSome ≠ dy.isSome then
    .error (.valueError "dx and dy must both be set, or left unset")
  else
    match dx, dy with
    | some dxv, some dyv =>
      if dxv.length ≠ st.n_vert ∨ dyv.length ≠ st.n_vert then
        .error (.valueError "dx and dy must both be length n_vert")
      else .error (.nameError "btol")
    | _, _ => .error (.nameError "btol")

/-- The coordinate-array shape processing of `PolygonEVP.__init__`
(`mps.py` lines 37-43 for `boundary_pts`, 51-56 for `interior_pts`),
abstracted to the numpy shape tuple: read `shape[0]` (an `IndexError`
on a 0-d array), transpose when it equals 2 (numpy `.T` reverses the
axis order), then evaluate `shape[1] != 2 or ndim != 2` — for a 1-D
array the `shape[1]` read raises `IndexError` before the `ndim` test is
reached. -/
def process_pts_shape (shape : List ℕ) : Except PyErr (List ℕ) :=
  match shape.get? 0 with
  | none => .error .indexError
  | some d0 =>
    let shape2 := if d0 = 2 then shape.reverse else shape
    match shape2.get? 1 with
    | none => .error .indexError
    | some d1 =>
      if d1 ≠ 2 ∨ shape2.length ≠ 2 then
        .error (.valueError "boundary_pts must be a 2-dimensional array of x & y coordinates")
      else
        .ok shape2

/-!
The eigenvalue locator `PolygonEVP.solve_ordered_eigs`
(`mps.py` lines 489-551).  It is embedded generically over a linear
ordered field `α` (instantiated at `ℚ` for executable checks and at `ℝ`
when the Weyl-law formulas, which involve `π` and square roots, are in
play).  The external pieces it consumes — `subspace_sines` values at
trial points, the `minsearch` bracketing/golden-section driver from
`pymps/utils.py` (absent from the sources; the spec treats it as an
external collaborator invoked with the objective, bracket, step and
tolerance), and the Weyl asymptotic estimate `self.weyl_k` — are
gathered in an oracle record.  `minsearch` is modelled as a function of
the bracket data only, since the objective it is invoked with is a fixed
function of the problem instance. -/

/-- Oracles consumed by one problem instance's eigenvalue search:
`sines lam` is `self.subspace_sines(lam)` (ascending sines), `minsearch
a b h tol` returns the located minima and the function-evaluation count,
and `weyl k` is `self.weyl_k(k)`. -/
structure LocOracles (α : Type) where
  sines : α → List α
  minsearch : α → α → α → α → List α × ℕ
  weyl : ℕ → α

/-- The Python locals of the `while` loop of `solve_ordered_eigs`,
which persist across iterations: the eigenvalue registry
`self._ordered_eigs` (kept sorted by the `ordered_eigs` setter), the
current bracket `[start, end]`, the escalation level `lev`, the step
`h`, the `extend` flag and the accumulated evaluation count. -/
structure LoopSt (α : Type) where
  registry : List α
  start : α
  end_ : α
  lev : ℕ
  h : α
  extend : Bool
  fevals : ℕ

variable {α : Type} [LinearOrderedField α]

/-- The escalation loop of `mps.py` lines 512-518: starting from
`lev`, return the first Weyl estimate `end = weyl_k(k_current + lev)`
that is not below `start` by the safety margin `1e8 * xtol`, escalating
`lev` otherwise.  The fuel argument models the possibility that the
Python `while` loop never exits. -/
def escalate (weyl : ℕ → α) (xtol start : α) (k_current : ℕ) : ℕ → ℕ → Option (α × ℕ)
  | _, 0 => none
  | lev, fuel + 1 =>
    let e := weyl (k_current + lev)
    if e + 100000000 * xtol < start then escalate weyl xtol start k_current (lev + 1) fuel
    else some (e, lev)

/-- The `for x_min in minima` loop of `mps.py` lines 529-541: compute
the multiplicity as the count of subspace sines below `ytol`, discard
duplicates within `xtol` of a registered eigenvalue, append `mult`
copies of accepted minima (the `ordered_eigs` setter re-sorts), and
break as soon as the registry holds `k` values. -/
def process_minima (sines : α → List α) (ytol xtol : α) (k : ℕ) :
    List α → List α → List α
  | [], reg => reg
  | x :: rest, reg =>
    let mult := (sines x).countP fun v => v < ytol
    let is_dup := reg.any fun e => |x - e| < xtol
    if is_dup = false ∧ 0 < mult then
      let reg' := List.insertionSort (· ≤ ·) (reg ++ List.replicate mult x)
      if k ≤ reg'.length then reg'
      else process_minima sines ytol xtol k rest reg'
    else process_minima sines ytol xtol k rest reg

/-- The bracket start of `mps.py` lines 506-508: kept from the previous
iteration when extending, the Weyl-law lower bound `self.lambda_1_lb`
when no eigenvalue is registered yet, and the last (largest) registered
eigenvalue otherwise. -/
def start_sel (lambda_1_lb : α) (s : LoopSt α) : α :=
  if s.extend then s.start
  else if s.registry.length = 0 then lambda_1_lb
  else s.registry.getD (s.registry.length - 1) 0

/-- The remainder of one `while` iteration of `solve_ordered_eigs`
after the bracket end and level are fixed (`mps.py` lines 520-550):
step sizing `h = (end - start)/(20*lev)`, the ghost-point shift
`start -= h` when the registry is non-empty, the `minsearch` call over
`[start, end + h]`, minima processing, and either the window extension
(`gap = end - start; start = end; end = start + gap; extend = True`)
when nothing new was registered, or `extend = False`. -/
def locator_after (O : LocOracles α) (xtol ytol : α) (k : ℕ) (reg : List α)
    (fevals0 : ℕ) (start0 end_ : α) (lev : ℕ) : LoopSt α :=
  let k_current := reg.length
  let n_pts : ℕ := 20 * lev
  let h := (end_ - start0) / (n_pts : α)
  let start := if k_current ≠ 0 then start0 - h else start0
  let mr := O.minsearch start (end_ + h) h xtol
  let registry := process_minima O.sines ytol xtol k mr.1 reg
  if registry.length = k_current then
    ⟨registry, end_, end_ + (end_ - start), lev, h, true, fevals0 + mr.2⟩
  else
    ⟨registry, start, end_, lev, h, false, fevals0 + mr.2⟩

/-- One full body of the `while len(self.ordered_eigs) < k` loop
(`mps.py` lines 500-550): select the start, reuse the stored bracket
when extending or run the escalation loop otherwise, then hand over to
`locator_after`.  `none` models a non-terminating escalation loop. -/
def locator_step (O : LocOracles α) (lambda_1_lb xtol ytol : α) (k escFuel : ℕ)
    (s : LoopSt α) : Option (LoopSt α) :=
  let start := start_sel lambda_1_lb s
  (if s.extend then some (s.end_, s.lev)
   else escalate O.weyl xtol start s.registry.length 1 escFuel).map
    fun p => locator_after O xtol ytol k s.registry s.fevals start p.1 p.2

/-- The `while len(self.ordered_eigs) < k` loop itself, with fuel for
the outer loop; it returns the registry (the `ordered_eigs` property)
together with the accumulated evaluation count. -/
def locator_loop (O : LocOracles α) (lambda_1_lb xtol ytol : α) (k escFuel : ℕ) :
    ℕ → LoopSt α → Option (List α × ℕ)
  | 0, s => if k ≤ s.registry.length then some (s.registry, s.fevals) else none
  | fuel + 1, s =>
    if k ≤ s.registry.length then some (s.registry, s.fevals)
    else
      match locator_step O lambda_1_lb xtol ytol k escFuel s with
      | none => none
      | some s' => locator_loop O lambda_1_lb xtol ytol k escFuel fuel s'

/-- `PolygonEVP.solve_ordered_eigs(k, xtol, ytol)` (`mps.py` lines
489-551), as a function of the mutable registry `self._ordered_eigs` it
starts from: run the search loop until `k` eigenvalues are registered
and return the sorted registry with the evaluation count. -/
def solve_ordered_eigs (O : LocOracles α) (lambda_1_lb : α) (k : ℕ) (xtol ytol : α)
    (fuel escFuel : ℕ) (registry : List α) : Option (List α × ℕ) :=
  locator_loop O lambda_1_lb xtol ytol k escFuel fuel ⟨registry, 0, 0, 1, 0, false, 0⟩

/-- `self.lambda_1_lb = 5.76*np.pi/self.area` (`mps.py` line 90), the
Weyl-law lower bound for the first Dirichlet eigenvalue. -/
noncomputable def lambda_1_lb (area : ℝ) : ℝ :=
  5.76 * Real.pi / area

/-- `PolygonEVP.weyl_k` (`mps.py` lines 575-578): the Weyl asymptotic
estimate `((P + sqrt(P^2 + 16*pi*A*k)) / (2*A))^2` for the k-th
eigenvalue of a polygon with area `A` and perimeter `P`. -/
noncomputable def weyl_k (A P : ℝ) (k : ℕ) : ℝ :=
  ((P + Real.sqrt (P ^ 2 + 16 * Real.pi * A * k)) / (2 * A)) ^ 2

/-! Helper lemmas. -/

lemma sorted_reverse_of_sorted_ge {l : List ℚ} (h : l.Sorted (· ≥ ·)) :
    l.reverse.Sorted (· ≤ ·) := by
  rw [List.Sorted, List.pairwise_reverse]
  exact h

lemma getLast_le_of_sorted_ge (l : List ℚ) :
    l.Sorted (· ≥ ·) → ∀ (hne : l ≠ []) (x : ℚ), x ∈ l → l.getLast hne ≤ x := by
  induction l with
  | nil => intro _ hne; cases hne rfl
  | cons a t ih =>
    intro hs hne x hx
    rw [List.sorted_cons] at hs
    cases t with
    | nil =>
      simp only [List.mem_singleton] at hx
      subst hx
      simp [List.getLast]
    | cons b t' =>
      rw [List.getLast_cons (by simp)]
      rcases List.mem_cons.mp hx with rfl | hx'
      · exact le_trans (ih hs.2 (by simp) b (List.mem_cons_self b t'))
          (hs.1 b (List.mem_cons_self b t'))
      · exact ih hs.2 (by simp) x hx'

lemma head_is_max_of_sorted_ge (r0 : ℚ) (rtail : List ℚ)
    (h : (r0 :: rtail).Sorted (· ≥ ·)) : ∀ x ∈ r0 :: rtail, x ≤ r0 := by
  intro x hx
  rcases List.mem_cons.mp hx with rfl | hx'
  · exact le_refl x
  · exact List.rel_of_sorted_cons h x hx'

/-! Claim C1: shape of the `subspace_sines` output. -/

/-- Claim C1.  For every λ at which the basis matrix evaluates to finite
values (modelled as: the SVD oracle succeeds, so `subspace_sines`
returns a value rather than the non-finite-SVD error), under the LAPACK
contract that singular values come back non-negative and descending,
`subspace_sines(λ, rtol, pivot)` returns a sequence of non-negative
rationals sorted in ascending order, and that sequence is exactly the
reversal of the singular values of the first `m_b` rows of the
rank-truncated orthonormal QR factor. -/
theorem subspace_sines_nonneg_ascending
    (la : LinAlg) (st : PolygonEVP) (hsvd : SvdvalsDescending la)
    (lam : ℚ) (rtolOpt : Option ℚ) (pivot : Bool) (res : List ℚ)
    (h : subspace_sines la st lam rtolOpt pivot = .ok res) :
    (∀ x ∈ res, 0 ≤ x) ∧ res.Sorted (· ≤ ·) ∧
      ∃ Qc : Mat × ℕ,
        qr_trunc la (st.basis lam) (rtolOpt.getD st.rtol) pivot = .ok Qc ∧
          la.svdvals (Qc.1.slice st.m_b Qc.2) = some res.reverse := by
  cases hq : qr_trunc la (st.basis lam) (rtolOpt.getD st.rtol) pivot with
  | error e =>
    rw [subspace_sines] at h
    simp only [hq] at h
    cases h
  | ok Qc =>
    rw [subspace_sines] at h
    simp only [hq] at h
    cases hs : la.svdvals (Qc.1.slice st.m_b Qc.2) with
    | none => rw [hs] at h; cases h
    | some s =>
      rw [hs] at h
      cases h
      obtain ⟨hdesc, hpos⟩ := hsvd _ _ hs
      refine ⟨?_, sorted_reverse_of_sorted_ge hdesc, ⟨Qc, rfl, ?_⟩⟩
      · intro x hx
        exact hpos x (List.mem_reverse.mp hx)
      · rw [List.reverse_reverse]
        exact hs

/-- Concrete SVD oracle for the C1 witness: constant descending output. -/
def laC1 : LinAlg where
  qr_piv := fun A => (A, A, [])
  qr := fun A => (A, A)
  svdvals := fun _ => some [2, 1, 0]
  svd := fun _ => none
  solve_triangular := fun _ B => B
  lstsq := fun _ B => B
  gsvd := fun A _ => ([], [], A)

/-- Concrete problem instance over the 2×2 identity basis matrix. -/
def stC1 : PolygonEVP where
  basis := fun _ => ⟨2, 2, fun i j => if i = j then 1 else 0⟩
  m_b := 1
  n_vert := 4

lemma laC1_contract : SvdvalsDescending laC1 := by
  intro M s hs
  cases Option.some.inj hs
  constructor
  · norm_num [List.sorted_cons]
  · intro x hx
    simp only [List.mem_cons, List.mem_singleton, List.not_mem_nil, or_false] at hx
    rcases hx with rfl | rfl | rfl <;> norm_num

lemma subspace_sines_laC1 :
    subspace_sines laC1 stC1 1 none true = .ok [0, 1, 2] := by
  norm_num [subspace_sines, qr_trunc, diag_abs, laC1, stC1, Mat.slice,
    List.range_succ, List.countP_cons]

/-- Witness for C1 at a concrete oracle and instance. -/
theorem subspace_sines_nonneg_ascending_witness :
    (∀ x ∈ ([0, 1, 2] : List ℚ), 0 ≤ x) ∧ ([0, 1, 2] : List ℚ).Sorted (· ≤ ·) ∧
      ∃ Qc : Mat × ℕ,
        qr_trunc laC1 (stC1.basis 1) ((none : Option ℚ).getD stC1.rtol) true = .ok Qc ∧
          laC1.svdvals (Qc.1.slice stC1.m_b Qc.2) = some ([0, 1, 2] : List ℚ).reverse :=
  subspace_sines_nonneg_ascending laC1 stC1 laC1_contract 1 none true [0, 1, 2]
    subspace_sines_laC1

/-! Claim C5: the pivoted rank-truncation step. -/

/-- Claim C5.  When `pivot` is true, the truncation stage of
`subspace_sines` returns (without raising any error) the pivoted `Q`
together with `cutoff` equal to the number of diagonal entries of `R`
whose magnitude exceeds `rtol` times the leading magnitude `r[0]`; under
the pivoted-QR contract the leading magnitude is the largest one, so
this is the count against `rtol` times the largest diagonal magnitude.
`cutoff` is a natural number (hence ≥ 0) and vanishes exactly when
every column fails the test.  The `r ≠ []` hypothesis excludes the
degenerate zero-column basis matrix, on which numpy's `r[0]` itself
raises `IndexError`. -/
theorem subspace_sines_pivot_cutoff
    (la : LinAlg) (st : PolygonEVP) (hqr : DiagDescending la) (lam rtol : ℚ)
    (r0 : ℚ) (rtail : List ℚ)
    (hr : diag_abs (la.qr_piv (st.basis lam)).2.1 = r0 :: rtail) :
    qr_trunc la (st.basis lam) rtol true =
        .ok ((la.qr_piv (st.basis lam)).1, (r0 :: rtail).countP fun x => r0 * rtol < x)
      ∧ (∀ x ∈ r0 :: rtail, x ≤ r0)
      ∧ (((r0 :: rtail).countP fun x => r0 * rtol < x) = 0 ↔
          ∀ x ∈ r0 :: rtail, ¬ r0 * rtol < x) := by
  have hsorted : (r0 :: rtail).Sorted (· ≥ ·) := hr ▸ hqr (st.basis lam)
  refine ⟨?_, head_is_max_of_sorted_ge r0 rtail hsorted, ?_⟩
  · rw [qr_trunc]
    simp only [if_true, hr]
  · rw [List.countP_eq_zero]
    constructor
    · intro hz x hx
      have := hz x hx
      simpa using this
    · intro hall x hx
      simpa using hall x hx

/-- Concrete pivoted-QR oracle for the C5 witness: constant `R` with
descending diagonal magnitudes `[2, 1]`. -/
def laC5 : LinAlg where
  qr_piv := fun A => (A, ⟨2, 2, fun i j => if i = j then (if i = 0 then 2 else 1) else 0⟩, [])
  qr := fun A => (A, A)
  svdvals := fun _ => some []
  svd := fun _ => none
  solve_triangular := fun _ B => B
  lstsq := fun _ B => B
  gsvd := fun A _ => ([], [], A)

lemma laC5_contract : DiagDescending laC5 := by
  intro A
  norm_num [laC5, diag_abs, List.range_succ, List.sorted_cons]

lemma laC5_diag : diag_abs (laC5.qr_piv (stC1.basis 1)).2.1 = [2, 1] := by
  norm_num [laC5, stC1, diag_abs, List.range_succ]

/-- Witness for C5 at a concrete oracle and instance. -/
theorem subspace_sines_pivot_cutoff_witness :
    qr_trunc laC5 (stC1.basis 1) (1 / 2) true =
        .ok ((laC5.qr_piv (stC1.basis 1)).1, ([2, 1] : List ℚ).countP fun x => 2 * (1 / 2) < x)
      ∧ (∀ x ∈ ([2, 1] : List ℚ), x ≤ 2)
      ∧ ((([2, 1] : List ℚ).countP fun x => 2 * (1 / 2) < x) = 0 ↔
          ∀ x ∈ ([2, 1] : List ℚ), ¬ (2 : ℚ) * (1 / 2) < x) :=
  subspace_sines_pivot_cutoff laC5 stC1 laC5_contract 1 (1 / 2) 2 [1] laC5_diag

/-! Claim C2: the zero-multiplicity error of `eigenbasis_coef`. -/

/-- Claim C2.  With the quadrature attributes present and the SVD oracle
succeeding with a non-empty value list (descending, per its contract),
`eigenbasis_coef(λ, rtol, mtol)` raises the zero-multiplicity error
exactly when no singular value of the truncated boundary-row block lies
below `mtol`; the error then carries both the achieved smallest singular
value (`s[-1]`, which the descending contract shows is the minimum of
`s`) and the `mtol` in force; and when the count is positive no error is
raised and the coefficient matrix has exactly that many columns. -/
theorem eigenbasis_coef_multiplicity
    (la : LinAlg) (st : PolygonEVP) (lam : ℚ) (rtolOpt mtolOpt : Option ℚ)
    (w : Mat) (nb : ℚ → Mat) (mb : ℕ)
    (hw : st.weights = some w) (hnb : st.n_basis = some nb) (hmb : st.bdry_nodes = some mb)
    (r0 : ℚ) (rtail : List ℚ)
    (hr : diag_abs (la.qr_piv (rowScale w (nb lam))).2.1 = r0 :: rtail)
    (hcon : SvdDescending la)
    (U : Mat) (s : List ℚ) (Vh : Mat)
    (hsvd : la.svd ((la.qr_piv (rowScale w (nb lam))).1.slice mb
        ((r0 :: rtail).countP fun x => r0 * rtolOpt.getD st.rtol < x)) = some (U, s, Vh))
    (hsne : s ≠ []) :
    ((s.countP fun x => x < mtolOpt.getD st.mtol) = 0 →
        eigenbasis_coef la st lam rtolOpt mtolOpt =
            .error (.zeroMultiplicity lam (some (s.getLast hsne)) (mtolOpt.getD st.mtol))
          ∧ ∀ x ∈ s, s.getLast hsne ≤ x)
      ∧ (0 < (s.countP fun x => x < mtolOpt.getD st.mtol) →
          ∃ C : Mat, eigenbasis_coef la st lam rtolOpt mtolOpt = .ok C
            ∧ C.cols = s.countP fun x => x < mtolOpt.getD st.mtol) := by
  have hmin : ∀ x ∈ s, s.getLast hsne ≤ x :=
    getLast_le_of_sorted_ge s (hcon _ _ _ _ hsvd).1 hsne
  rw [eigenbasis_coef]
  simp only [hw, hnb, hmb, getattr, hr, hsvd]
  constructor
  · intro hz
    rw [hz]
    simp only [if_pos rfl, List.getLast?_eq_getLast s hsne]
    exact ⟨rfl, hmin⟩
  · intro hpos
    rw [if_neg (by omega)]
    exact ⟨_, rfl, rfl⟩

/-- Concrete oracle for the C2 witness: pivoted QR with diagonal
magnitudes `[3, 2]` and a full SVD returning descending values
`[1, 0]`, of which exactly one lies below the default
`mtol = 1/10000`. -/
def laC2 : LinAlg where
  qr_piv := fun A => (A, ⟨2, 2, fun i j => if i = j then (if i = 0 then 3 else 2) else 0⟩, [1, 0])
  qr := fun A => (A, A)
  svdvals := fun _ => none
  svd := fun M => some (M, [1, 0], M)
  solve_triangular := fun _ B => B
  lstsq := fun _ B => B
  gsvd := fun A _ => ([], [], A)

/-- Concrete problem instance with quadrature attributes present. -/
def stC2 : PolygonEVP where
  basis := fun _ => ⟨2, 2, fun i j => if i = j then 1 else 0⟩
  m_b := 1
  n_vert := 4
  weights := some ⟨2, 1, fun _ _ => 1⟩
  n_basis := some fun _ => ⟨2, 2, fun i j => if i = j then 1 else 0⟩
  bdry_nodes := some 1

lemma laC2_contract : SvdDescending laC2 := by
  intro M U s Vh hs
  rw [laC2] at hs
  simp only at hs
  cases hs
  refine ⟨by norm_num [List.sorted_cons], ?_⟩
  intro x hx
  simp only [List.mem_cons, List.mem_singleton, List.not_mem_nil, or_false] at hx
  rcases hx with rfl | rfl <;> norm_num

lemma stC2_diag :
    diag_abs (laC2.qr_piv (rowScale (⟨2, 1, fun _ _ => 1⟩ : Mat)
      (stC2.n_basis.get (by rw [stC2]; simp) 1))).2.1 = [3, 2] := by
  norm_num [laC2, stC2, diag_abs, rowScale, List.range_succ]

/-- Witness for C2 at a concrete oracle and instance: the multiplicity
count is 1, so the call succeeds with a single-column coefficient
matrix. -/
theorem eigenbasis_coef_multiplicity_witness :
    0 < (([1, 0] : List ℚ).countP fun x => x < (none : Option ℚ).getD stC2.mtol)
      ∧ ∃ C : Mat, eigenbasis_coef laC2 stC2 1 none none = .ok C
          ∧ C.cols = ([1, 0] : List ℚ).countP fun x => x < (none : Option ℚ).getD stC2.mtol := by
  have hcount : 0 < (([1, 0] : List ℚ).countP fun x => x < (none : Option ℚ).getD stC2.mtol) := by
    norm_num [stC2, List.countP_cons]
  refine ⟨hcount, ?_⟩
  refine (eigenbasis_coef_multiplicity laC2 stC2 1 none none
    ⟨2, 1, fun _ _ => 1⟩ (fun _ => ⟨2, 2, fun i j => if i = j then 1 else 0⟩) 1
    (by rw [stC2]) (by rw [stC2]) (by rw [stC2])
    3 [2] (by norm_num [laC2, stC2, diag_abs, rowScale, List.range_succ])
    laC2_contract
    _ [1, 0] _ (by rw [laC2]) (by simp)).2 hcount

/-! Claim C10: quadrature-weighted operations without quadrature data. -/

/-- Claim C10.  On an instance constructed without `bdry_nodes` the
constructor leaves `weights`, `n_basis` and `bdry_nodes` unset, so every
quadrature-weighted operation — `weighted_subspace_sines`,
`eigenbasis_coef`, `gsvd_eigenbasis_coef`, `eigenbasis_node_eval` —
fails for every λ with the missing-attribute error (Python's
`AttributeError` for `self.weights`, the first unset attribute each of
them reads). -/
theorem quadrature_ops_require_nodes
    (la : LinAlg) (st : PolygonEVP) (h : st.weights = none)
    (lam : ℚ) (rtolOpt mtolOpt : Option ℚ) (pivot : Bool) :
    weighted_subspace_sines la st lam rtolOpt pivot = .error (.attributeError "weights")
      ∧ eigenbasis_coef la st lam rtolOpt mtolOpt = .error (.attributeError "weights")
      ∧ gsvd_eigenbasis_coef la st lam mtolOpt = .error (.attributeError "weights")
      ∧ eigenbasis_node_eval la st lam rtolOpt mtolOpt = .error (.attributeError "weights") := by
  refine ⟨?_, ?_, ?_, ?_⟩
  · rw [weighted_subspace_sines]; simp only [h, getattr]
  · rw [eigenbasis_coef]; simp only [h, getattr]
  · rw [gsvd_eigenbasis_coef]; simp only [h, getattr]
  · rw [eigenbasis_node_eval]; simp only [h, getattr]

/-- Concrete instance constructed without quadrature data (all three
quadrature attributes default to `none`). -/
def stC10 : PolygonEVP where
  basis := fun _ => ⟨2, 2, fun i j => if i = j then 1 else 0⟩
  m_b := 1
  n_vert := 4

/-- Witness for C10 at a concrete instance. -/
theorem quadrature_ops_require_nodes_witness :
    weighted_subspace_sines laC1 stC10 1 none true = .error (.attributeError "weights")
      ∧ eigenbasis_coef laC1 stC10 1 none none = .error (.attributeError "weights")
      ∧ gsvd_eigenbasis_coef laC1 stC10 1 none = .error (.attributeError "weights")
      ∧ eigenbasis_node_eval laC1 stC10 1 none none = .error (.attributeError "weights") :=
  quadrature_ops_require_nodes laC1 stC10 (by rw [stC10]) 1 none none true

/-! Claim C7: `gsvd_subspace_tans` always raises `UnboundLocalError`. -/

/-- Claim C7 (code bug).  The claim states that `gsvd_subspace_tans(λ)`
returns ascending tangents with `+inf` where `S = 0` and never raises on
well-formed input; but line 159 of `mps.py` reads the local variable
`rtol` before assignment in a method with no `rtol` parameter, so every
call raises `UnboundLocalError` instead, for every λ, oracle and
instance — the GSVD of lines 160-163
(`gsvd_subspace_tans_unreachable_body`) is dead code. -/
theorem gsvd_subspace_tans_always_raises
    (la : LinAlg) (st : PolygonEVP) (lam : ℚ) :
    gsvd_subspace_tans la st lam = .error (.unboundLocalError "rtol") :=
  rfl

/-! Claim C8: `dlambda` always raises `NameError` on `btol`. -/

/-- Claim C8 (code bug).  The claim states that `dlambda(λ)` with no
direction fails with the repeated-eigenvalue error precisely when the
multiplicity exceeds one, and otherwise proceeds; but line 467 of
`mps.py` evaluates the unbound name `btol` while assembling the
arguments of `self.sigma`, so every call that passes the direction-shape
validation — with no direction, or with a well-formed direction —
raises `NameError` before the multiplicity is ever computed. -/
theorem dlambda_always_raises_name_error
    (st : PolygonEVP) (lam : ℚ) (n : ℕ) (rtolOpt mtolOpt : Option ℚ) :
    dlambda st lam none none n rtolOpt mtolOpt = .error (.nameError "btol")
      ∧ ∀ dx dy : List ℚ, dx.length = st.n_vert → dy.length = st.n_vert →
          dlambda st lam (some dx) (some dy) n rtolOpt mtolOpt = .error (.nameError "btol") := by
  constructor
  · rfl
  · intro dx dy hdx hdy
    rw [dlambda]
    simp [hdx, hdy]

/-- Witness for C8 at a concrete instance and direction. -/
theorem dlambda_always_raises_name_error_witness :
    dlambda stC10 1 none none 20 none none = .error (.nameError "btol")
      ∧ dlambda stC10 1 (some [1, 2, 3, 4]) (some [0, 0, 0, 1]) 20 none none =
          .error (.nameError "btol") := by
  obtain ⟨h1, h2⟩ := dlambda_always_raises_name_error stC10 1 20 none none
  exact ⟨h1, h2 [1, 2, 3, 4] [0, 0, 0, 1] rfl rfl⟩

/-! Claim C9: constructor shape validation on 1-D coordinate arrays. -/

/-- Claim C9 (code bug).  The claim states that any coordinate array
that is not a 2-dimensional 2-column array — including a 1-dimensional
one — makes construction fail with the input-shape `ValueError`; but for
a 1-dimensional array of any length the check
`self.boundary_pts.shape[1] != 2 or self.boundary_pts.ndim != 2`
(line 40/54 of `mps.py`) evaluates `shape[1]` first, which raises
`IndexError: tuple index out of range` before the `ndim` test that was
meant to catch this case, so the intended error is never reached (a 0-d
array likewise dies with `IndexError` at `shape[0]`). -/
theorem process_pts_shape_one_dim_index_error :
    (∀ n : ℕ, process_pts_shape [n] = .error .indexError)
      ∧ process_pts_shape [] = .error .indexError
      ∧ process_pts_shape [3, 5] =
          .error (.valueError "boundary_pts must be a 2-dimensional array of x & y coordinates") := by
  refine ⟨?_, rfl, rfl⟩
  intro n
  rw [process_pts_shape]
  by_cases hn : n = 2 <;> simp [hn]

/-! Locator helper lemmas. -/

lemma escalate_spec (weyl : ℕ → α) (xtol start : α) (kc : ℕ) :
    ∀ (fuel lev0 : ℕ) (e : α) (lev : ℕ),
      escalate weyl xtol start kc lev0 fuel = some (e, lev) →
      lev0 ≤ lev ∧ e = weyl (kc + lev) ∧ ¬(e + 100000000 * xtol < start) ∧
        ∀ l, lev0 ≤ l → l < lev → weyl (kc + l) + 100000000 * xtol < start := by
  intro fuel
  induction fuel with
  | zero => intro lev0 e lev h; cases h
  | succ f ih =>
    intro lev0 e lev h
    rw [escalate] at h
    by_cases hc : weyl (kc + lev0) + 100000000 * xtol < start
    · rw [if_pos hc] at h
      obtain ⟨h1, h2, h3, h4⟩ := ih (lev0 + 1) e lev h
      refine ⟨by omega, h2, h3, ?_⟩
      intro l hl1 hl2
      rcases eq_or_lt_of_le hl1 with rfl | hlt
      · exact hc
      · exact h4 l (by omega) hl2
    · rw [if_neg hc] at h
      cases h
      exact ⟨le_refl _, rfl, hc, fun l hl1 hl2 => absurd hl2 (by omega)⟩

lemma mem_process_minima (sines : α → List α) (ytol xtol : α) (k : ℕ) :
    ∀ (minima reg : List α) (x : α), x ∈ process_minima sines ytol xtol k minima reg →
      x ∈ reg ∨ x ∈ minima := by
  intro minima
  induction minima with
  | nil => intro reg x hx; exact Or.inl hx
  | cons m rest ih =>
    intro reg x hx
    rw [process_minima] at hx
    by_cases hcond : (reg.any fun e => |m - e| < xtol) = false ∧
        0 < (sines m).countP fun v => v < ytol
    · rw [if_pos hcond] at hx
      have hmem_sort : ∀ y : α,
          y ∈ List.insertionSort (· ≤ ·)
            (reg ++ List.replicate ((sines m).countP fun v => v < ytol) m) →
          y ∈ reg ∨ y ∈ m :: rest := by
        intro y hy
        rw [List.mem_insertionSort, List.mem_append] at hy
        rcases hy with hy | hy
        · exact Or.inl hy
        · exact Or.inr (List.mem_cons.mpr (Or.inl (List.eq_of_mem_replicate hy)))
      by_cases hk : k ≤ (List.insertionSort (· ≤ ·)
          (reg ++ List.replicate ((sines m).countP fun v => v < ytol) m)).length
      · rw [if_pos hk] at hx
        exact hmem_sort x hx
      · rw [if_neg hk] at hx
        rcases ih _ x hx with hy | hy
        · rcases hmem_sort x hy with h | h
          · exact Or.inl h
          · exact Or.inr h
        · exact Or.inr (List.mem_cons.mpr (Or.inr hy))
    · rw [if_neg hcond] at hx
      rcases ih _ x hx with hy | hy
      · exact Or.inl hy
      · exact Or.inr (List.mem_cons.mpr (Or.inr hy))

lemma process_minima_sorted_extend (sines : α → List α) (ytol xtol : α) (k : ℕ) :
    ∀ (minima reg : List α), reg.Sorted (· ≤ ·) →
      (process_minima sines ytol xtol k minima reg).Sorted (· ≤ ·) ∧
        (reg : Multiset α) ≤ (process_minima sines ytol xtol k minima reg : Multiset α) := by
  intro minima
  induction minima with
  | nil => intro reg hreg; exact ⟨hreg, le_refl _⟩
  | cons m rest ih =>
    intro reg hreg
    rw [process_minima]
    by_cases hcond : (reg.any fun e => |m - e| < xtol) = false ∧
        0 < (sines m).countP fun v => v < ytol
    · rw [if_pos hcond]
      set reg' := List.insertionSort (· ≤ ·)
        (reg ++ List.replicate ((sines m).countP fun v => v < ytol) m) with hreg'
      have hsort' : reg'.Sorted (· ≤ ·) := List.sorted_insertionSort _ _
      have hle' : (reg : Multiset α) ≤ (reg' : Multiset α) := by
        have hperm : List.Perm reg'
            (reg ++ List.replicate ((sines m).countP fun v => v < ytol) m) :=
          List.perm_insertionSort _ _
        rw [Multiset.coe_eq_coe.mpr hperm]
        exact (List.sublist_append_left _ _).subperm
      by_cases hk : k ≤ reg'.length
      · rw [if_pos hk]
        exact ⟨hsort', hle'⟩
      · rw [if_neg hk]
        obtain ⟨h1, h2⟩ := ih reg' hsort'
        exact ⟨h1, le_trans hle' h2⟩
    · rw [if_neg hcond]
      exact ih reg hreg

lemma locator_after_registry (O : LocOracles α) (xtol ytol : α) (k : ℕ) (reg : List α)
    (fev : ℕ) (start0 e : α) (lev : ℕ) :
    ∃ minima, (locator_after O xtol ytol k reg fev start0 e lev).registry =
      process_minima O.sines ytol xtol k minima reg :=
  ⟨_, by simp only [locator_after, apply_ite LoopSt.registry, ite_self]; rfl⟩

lemma locator_step_registry (O : LocOracles α) (lambda1 xtol ytol : α) (k escFuel : ℕ)
    (s s' : LoopSt α) (hs : locator_step O lambda1 xtol ytol k escFuel s = some s')
    (hsort : s.registry.Sorted (· ≤ ·)) :
    s'.registry.Sorted (· ≤ ·) ∧ (s.registry : Multiset α) ≤ (s'.registry : Multiset α) := by
  rw [locator_step] at hs
  obtain ⟨p, hp, hf⟩ := Option.map_eq_some'.mp hs
  obtain ⟨minima, hreg'⟩ := locator_after_registry O xtol ytol k s.registry s.fevals
    (start_sel lambda1 s) p.1 p.2
  rw [← hf, hreg']
  exact process_minima_sorted_extend O.sines ytol xtol k minima s.registry hsort

lemma locator_loop_of_reached (O : LocOracles α) (lambda1 xtol ytol : α) (k escFuel : ℕ)
    (s : LoopSt α) (h : k ≤ s.registry.length) :
    ∀ fuel, locator_loop O lambda1 xtol ytol k escFuel fuel s = some (s.registry, s.fevals) := by
  intro fuel
  cases fuel with
  | zero => rw [locator_loop, if_pos h]
  | succ f => rw [locator_loop, if_pos h]

lemma locator_loop_sorted_extend (O : LocOracles α) (lambda1 xtol ytol : α) (k escFuel : ℕ) :
    ∀ (fuel : ℕ) (s : LoopSt α) (out : List α) (fe : ℕ), s.registry.Sorted (· ≤ ·) →
      locator_loop O lambda1 xtol ytol k escFuel fuel s = some (out, fe) →
      out.Sorted (· ≤ ·) ∧ (s.registry : Multiset α) ≤ (out : Multiset α) := by
  intro fuel
  induction fuel with
  | zero =>
    intro s out fe hsort h
    rw [locator_loop] at h
    by_cases hk : k ≤ s.registry.length
    · rw [if_pos hk] at h
      cases h
      exact ⟨hsort, le_refl _⟩
    · rw [if_neg hk] at h
      cases h
  | succ f ih =>
    intro s out fe hsort h
    rw [locator_loop] at h
    by_cases hk : k ≤ s.registry.length
    · rw [if_pos hk] at h
      cases h
      exact ⟨hsort, le_refl _⟩
    · rw [if_neg hk] at h
      cases hstep : locator_step O lambda1 xtol ytol k escFuel s with
      | none => rw [hstep] at h; cases h
      | some s' =>
        rw [hstep] at h
        obtain ⟨h1, h2⟩ := locator_step_registry O lambda1 xtol ytol k escFuel s s' hstep hsort
        obtain ⟨h3, h4⟩ := ih s' out fe h1 h
        exact ⟨h3, le_trans h2 h4⟩

/-! Claim C3: monotonic extension of the eigenvalue registry. -/

/-- Claim C3 (amended).  Successive calls `solve_ordered_eigs(k)` then
`solve_ordered_eigs(k')` on one problem instance both return the
registry sorted in non-decreasing order, and the registry is only ever
appended to: the input registry is a sub-multiset of the first result,
and the first result is a sub-multiset of the second — previously
confirmed eigenvalues are reused, never rebuilt or shrunk.  The first
result need not be a *prefix* of the second, because the ghost-point
scan (`start -= h`, `mps.py` line 526) can confirm a new eigenvalue
below the previous maximum, which sorting then inserts in the middle
(see the counterexample). -/
theorem solve_ordered_eigs_registry_extension
    (O : LocOracles α) (lambda1 xtol ytol : α) (k k' fuel fuel' escFuel escFuel' : ℕ)
    (reg out1 out2 : List α) (fe1 fe2 : ℕ)
    (hreg : reg.Sorted (· ≤ ·))
    (h1 : solve_ordered_eigs O lambda1 k xtol ytol fuel escFuel reg = some (out1, fe1))
    (h2 : solve_ordered_eigs O lambda1 k' xtol ytol fuel' escFuel' out1 = some (out2, fe2)) :
    out1.Sorted (· ≤ ·) ∧ out2.Sorted (· ≤ ·) ∧
      (reg : Multiset α) ≤ (out1 : Multiset α) ∧
      (out1 : Multiset α) ≤ (out2 : Multiset α) := by
  rw [solve_ordered_eigs] at h1 h2
  obtain ⟨hs1, hm1⟩ :=
    locator_loop_sorted_extend O lambda1 xtol ytol k escFuel fuel _ out1 fe1 hreg h1
  obtain ⟨hs2, hm2⟩ :=
    locator_loop_sorted_extend O lambda1 xtol ytol k' escFuel' fuel' _ out2 fe2 hs1 h2
  exact ⟨hs1, hs2, hm1, hm2⟩

/-- Concrete oracle over ℚ for C3: the first scan (bracket start 1)
locates the minimum 3; a later ghost-point scan, whose bracket start
lies far below, locates the minimum 1/2 below the previously confirmed
eigenvalue. -/
def OC3 : LocOracles ℚ where
  sines := fun _ => [0]
  minsearch := fun a _ _ _ =>
    if a = 1 then ([3], 1) else if a ≤ 1 / 2 then ([1 / 2], 1) else ([], 0)
  weyl := fun n => if n = 1 then 5 else 1000

lemma OC3_run1 :
    solve_ordered_eigs OC3 1 1 (1 / 100000000) (1 / 100000) 3 3 ([] : List ℚ) =
      some ([3], 1) := by
  norm_num [solve_ordered_eigs, locator_loop, locator_step, start_sel, escalate, locator_after,
    process_minima, List.insertionSort, List.orderedInsert, OC3, abs_lt]

lemma OC3_run2 :
    solve_ordered_eigs OC3 1 2 (1 / 100000000) (1 / 100000) 3 3 ([3] : List ℚ) =
      some ([1 / 2, 3], 1) := by
  norm_num [solve_ordered_eigs, locator_loop, locator_step, start_sel, escalate, locator_after,
    process_minima, List.insertionSort, List.orderedInsert, OC3, abs_lt]

/-- Witness for (amended) C3: the two concrete runs of `OC3`. -/
theorem solve_ordered_eigs_registry_extension_witness :
    ([3] : List ℚ).Sorted (· ≤ ·) ∧ ([1 / 2, 3] : List ℚ).Sorted (· ≤ ·) ∧
      (([] : List ℚ) : Multiset ℚ) ≤ (([3] : List ℚ) : Multiset ℚ) ∧
      (([3] : List ℚ) : Multiset ℚ) ≤ (([1 / 2, 3] : List ℚ) : Multiset ℚ) :=
  solve_ordered_eigs_registry_extension OC3 1 (1 / 100000000) (1 / 100000) 1 2 3 3 3 3
    [] [3] [1 / 2, 3] 1 1 (by simp) OC3_run1 OC3_run2

/-- Counterexample to C3 as stated: calling `solve_ordered_eigs(1)` and
then `solve_ordered_eigs(2)` on the same instance returns `[3]` and then
`[1/2, 3]` — the ghost-point scan of the second call confirms the new
eigenvalue 1/2 *below* the previously confirmed 3, so the first result
is not a prefix of the second. -/
theorem solve_ordered_eigs_prefix_counterexample :
    solve_ordered_eigs OC3 1 1 (1 / 100000000) (1 / 100000) 3 3 ([] : List ℚ) = some ([3], 1)
      ∧ solve_ordered_eigs OC3 1 2 (1 / 100000000) (1 / 100000) 3 3 ([3] : List ℚ) =
          some ([1 / 2, 3], 1)
      ∧ ¬ ∃ t : List ℚ, [3] ++ t = [1 / 2, 3] := by
  refine ⟨OC3_run1, OC3_run2, ?_⟩
  rintro ⟨t, ht⟩
  simp only [List.cons_append, List.nil_append, List.cons.injEq] at ht
  exact absurd ht.1 (by norm_num)

/-! Claim C4: the Weyl-law lower bound on the first eigenvalue. -/

lemma locator_empty_lower_bound (O : LocOracles α) (l1 xtol ytol : α) (escFuel : ℕ)
    (hmin : ∀ a b hh t, ∀ x ∈ (O.minsearch a b hh t).1, a ≤ x)
    (hweyl : ∀ j, l1 ≤ O.weyl j) :
    ∀ (fuel : ℕ) (s : LoopSt α), s.registry = [] →
      (s.extend = true → l1 ≤ s.start ∧ s.start ≤ s.end_) →
      ∀ out fe, locator_loop O l1 xtol ytol 1 escFuel fuel s = some (out, fe) →
        ∀ x ∈ out, l1 ≤ x := by
  intro fuel
  induction fuel with
  | zero =>
    intro s hempty hinv out fe h
    rw [locator_loop, hempty] at h
    simp at h
  | succ f ih =>
    intro s hempty hinv out fe h
    obtain ⟨reg, sstart, send, slev, sh, sext, sfev⟩ := s
    simp only at hempty hinv
    subst hempty
    rw [locator_loop, if_neg (by simp)] at h
    cases hstep : locator_step O l1 xtol ytol 1 escFuel ⟨[], sstart, send, slev, sh, sext, sfev⟩ with
    | none => rw [hstep] at h; cases h
    | some s' =>
      rw [hstep] at h
      rw [locator_step] at hstep
      obtain ⟨p, hp, hf⟩ := Option.map_eq_some'.mp hstep
      -- the selected bracket start is at least l1, and the bracket end p.1 is above it
      have hstart : l1 ≤ start_sel l1 ⟨[], sstart, send, slev, sh, sext, sfev⟩ := by
        rw [start_sel]
        cases sext with
        | true => exact (hinv rfl).1
        | false => simp
      have hse : start_sel l1 ⟨[], sstart, send, slev, sh, sext, sfev⟩ ≤ p.1 := by
        cases sext with
        | true =>
          simp only [if_pos rfl] at hp
          cases hp
          simpa [start_sel] using (hinv rfl).2
        | false =>
          simp only [Bool.false_eq_true, if_neg] at hp
          obtain ⟨-, he2, -, -⟩ :=
            escalate_spec O.weyl xtol _ _ escFuel 1 p.1 p.2 hp
          have : start_sel l1 ⟨[], sstart, send, slev, sh, false, sfev⟩ = l1 := by
            rw [start_sel]; simp
          rw [this, he2]
          exact hweyl _
      have he : l1 ≤ p.1 := le_trans hstart hse
      -- unfold the iteration tail
      rw [← hf] at h
      rw [locator_after] at h
      simp only [List.length_nil, ne_eq, not_true_eq_false, if_neg, ite_false,
        reduceIte] at h
      by_cases hlen : (process_minima O.sines ytol xtol 1
          (O.minsearch (start_sel l1 ⟨[], sstart, send, slev, sh, sext, sfev⟩)
            (p.1 + (p.1 - start_sel l1 ⟨[], sstart, send, slev, sh, sext, sfev⟩) /
              ((20 * p.2 : ℕ) : α))
            ((p.1 - start_sel l1 ⟨[], sstart, send, slev, sh, sext, sfev⟩) /
              ((20 * p.2 : ℕ) : α)) xtol).1 []).length = 0
      · -- nothing confirmed: window extension, recurse with the invariant
        rw [if_pos hlen] at h
        refine ih _ (List.length_eq_zero.mp hlen) ?_ out fe h
        intro _
        constructor
        · exact he
        · have : (0 : α) ≤ p.1 - start_sel l1 ⟨[], sstart, send, slev, sh, sext, sfev⟩ := by
            linarith
          linarith
      · -- something confirmed: the loop returns it at the next check
        rw [if_neg hlen] at h
        rw [locator_loop_of_reached O l1 xtol ytol 1 escFuel _
          (by simpa [Nat.one_le_iff_ne_zero] using hlen) f] at h
        cases h
        intro x hx
        rcases mem_process_minima O.sines ytol xtol 1 _ _ x hx with hx0 | hxm
        · cases hx0
        · exact le_trans hstart (hmin _ _ _ _ x hxm)

/-- Claim C4 (amended).  `solve_ordered_eigs(1, xtol, …)` started from an
empty registry returns only eigenvalues at or above the Weyl-law lower
bound `5.76π/area` (in particular at least that bound minus `xtol`),
because while no eigenvalue has been confirmed the scan starts at
`self.lambda_1_lb = 5.76π/area` and every window extension moves
upward.  The contracts assumed of the external collaborators are that
`minsearch` never reports a minimum below its bracket start and that the
Weyl estimates do not fall below the lower bound.  For k ≥ 2 the bound
fails (see the counterexample): once an eigenvalue is confirmed, the
ghost-point scan starts one step `h` below it, and `h` can far exceed
`xtol`. -/
theorem solve_ordered_eigs_first_eigenvalue_weyl_bound
    (O : LocOracles ℝ) (area xtol ytol : ℝ) (fuel escFuel : ℕ) (out : List ℝ) (fe : ℕ)
    (hxtol : 0 ≤ xtol)
    (hmin : ∀ a b hh t, ∀ x ∈ (O.minsearch a b hh t).1, a ≤ x)
    (hweyl : ∀ j, lambda_1_lb area ≤ O.weyl j)
    (hrun : solve_ordered_eigs O (lambda_1_lb area) 1 xtol ytol fuel escFuel [] =
      some (out, fe)) :
    ∀ x ∈ out, lambda_1_lb area - xtol ≤ x := by
  intro x hx
  have hb : lambda_1_lb area ≤ x := by
    refine locator_empty_lower_bound O (lambda_1_lb area) xtol ytol escFuel hmin hweyl fuel
      ⟨[], 0, 0, 1, 0, false, 0⟩ rfl (by intro hcon; cases hcon) out fe ?_ x hx
    exact hrun
  linarith

/-- Concrete oracle over ℝ for the C4 witness: `minsearch` reports a
single minimum one unit above the bracket start. -/
noncomputable def OC4w : LocOracles ℝ where
  sines := fun _ => [0]
  minsearch := fun a _ _ _ => ([a + 1], 7)
  weyl := fun _ => 5

lemma lambda_1_lb_special : lambda_1_lb (5.76 * Real.pi) = 1 := by
  rw [lambda_1_lb]
  exact div_self (by positivity)

lemma OC4w_run :
    solve_ordered_eigs OC4w (lambda_1_lb (5.76 * Real.pi)) 1 0 1 1 1 [] = some ([2], 7) := by
  rw [lambda_1_lb_special]
  norm_num [solve_ordered_eigs, locator_loop, locator_step, start_sel, escalate, locator_after,
    process_minima, List.insertionSort, List.orderedInsert, OC4w, abs_lt]

/-- Witness for (amended) C4: on the concrete ℝ instance with
`area = 5.76π` (so that the lower bound is 1), the single returned
eigenvalue 2 satisfies the bound. -/
theorem solve_ordered_eigs_first_eigenvalue_weyl_bound_witness :
    lambda_1_lb (5.76 * Real.pi) - 0 ≤ 2 := by
  refine solve_ordered_eigs_first_eigenvalue_weyl_bound OC4w (5.76 * Real.pi) 0 1 1 1 [2] 7
    le_rfl ?_ ?_ OC4w_run 2 (by simp)
  · intro a b hh t x hx
    simp only [OC4w, List.mem_singleton] at hx
    subst hx
    linarith
  · intro j
    rw [lambda_1_lb_special]
    norm_num [OC4w]

/-- Concrete oracle over ℝ for the C4 counterexample; it satisfies the
same `minsearch` and Weyl contracts as the amended claim. -/
noncomputable def OC4 : LocOracles ℝ where
  sines := fun _ => [0]
  minsearch := fun a _ _ _ =>
    if a = 1 then ([3], 1) else if a ≤ 1 / 2 then ([1 / 2], 1) else ([], 0)
  weyl := fun n => if n = 1 then 5 else 1000

/-- Counterexample to C4 as stated: with `area = 5.76π` (lower bound
`5.76π/area = 1`) and `xtol = 1e-8`, `solve_ordered_eigs(2)` confirms 3
on the first sweep and then — via the ghost-point scan that starts one
step `h = 49.85` below it — confirms `1/2`, so the smallest returned
eigenvalue lies below `5.76π/area − xtol` although the `minsearch` and
Weyl contracts of the amended claim hold. -/
theorem solve_ordered_eigs_weyl_bound_counterexample :
    solve_ordered_eigs OC4 (lambda_1_lb (5.76 * Real.pi)) 2 (1 / 100000000) (1 / 100000) 3 3 [] =
        some ([1 / 2, 3], 2)
      ∧ (1 / 2 : ℝ) < lambda_1_lb (5.76 * Real.pi) - 1 / 100000000
      ∧ (∀ a b hh t, ∀ x ∈ (OC4.minsearch a b hh t).1, a ≤ x)
      ∧ (∀ j, lambda_1_lb (5.76 * Real.pi) ≤ OC4.weyl j) := by
  refine ⟨?_, ?_, ?_, ?_⟩
  · rw [lambda_1_lb_special]
    norm_num [solve_ordered_eigs, locator_loop, locator_step, start_sel, escalate, locator_after,
      process_minima, List.insertionSort, List.orderedInsert, OC4, abs_lt]
  · rw [lambda_1_lb_special]
    norm_num
  · intro a b hh t x hx
    rw [OC4] at hx
    simp only at hx
    by_cases h1 : a = 1
    · rw [if_pos h1] at hx
      simp only [List.mem_singleton] at hx
      subst hx; rw [h1]; norm_num
    · rw [if_neg h1] at hx
      by_cases h2 : a ≤ 1 / 2
      · rw [if_pos h2] at hx
        simp only [List.mem_singleton] at hx
        subst hx; exact h2
      · rw [if_neg h2] at hx
        simp at hx
  · intro j
    rw [lambda_1_lb_special, OC4]
    simp only
    by_cases hj : j = 1 <;> simp [hj]

/-! Claim C6: bracket end, escalation and step size. -/

lemma locator_after_lev (O : LocOracles α) (xtol ytol : α) (k : ℕ) (reg : List α)
    (fev : ℕ) (start0 e : α) (lev : ℕ) :
    (locator_after O xtol ytol k reg fev start0 e lev).lev = lev := by
  simp only [locator_after, apply_ite LoopSt.lev, ite_self]

lemma locator_after_h (O : LocOracles α) (xtol ytol : α) (k : ℕ) (reg : List α)
    (fev : ℕ) (start0 e : α) (lev : ℕ) :
    (locator_after O xtol ytol k reg fev start0 e lev).h =
      (e - start0) / ((20 * lev : ℕ) : α) := by
  simp only [locator_after, apply_ite LoopSt.h, ite_self]

/-- Claim C6.  In a non-extending iteration of `solve_ordered_eigs`, the
bracket end is the Weyl asymptotic estimate
`weyl_k(k_current + lev) = ((P + √(P² + 16πA(k_current+lev)))/(2A))²`,
where the escalation level `lev` starts at one and is escalated exactly
while the estimate falls below the bracket start by more than the safety
margin `1e8·xtol` (so the estimate used is the first adequate one, and
all the estimates skipped were inadequate), and the scan step size
stored in the loop state equals the bracket width divided by
`20·lev`. -/
theorem solve_ordered_eigs_bracket_spec
    (O : LocOracles ℝ) (A P lambda1 xtol ytol : ℝ) (k escFuel : ℕ) (s s' : LoopSt ℝ)
    (hweyl : O.weyl = weyl_k A P)
    (hext : s.extend = false)
    (hstep : locator_step O lambda1 xtol ytol k escFuel s = some s') :
    ∃ e : ℝ, ∃ lev : ℕ, 1 ≤ lev ∧
      escalate O.weyl xtol (start_sel lambda1 s) s.registry.length 1 escFuel = some (e, lev) ∧
      e = weyl_k A P (s.registry.length + lev) ∧
      weyl_k A P (s.registry.length + lev) =
        ((P + Real.sqrt (P ^ 2 + 16 * Real.pi * A * ((s.registry.length + lev : ℕ) : ℝ))) /
          (2 * A)) ^ 2 ∧
      ¬ (e + 100000000 * xtol < start_sel lambda1 s) ∧
      (∀ l, 1 ≤ l → l < lev →
        O.weyl (s.registry.length + l) + 100000000 * xtol < start_sel lambda1 s) ∧
      s' = locator_after O xtol ytol k s.registry s.fevals (start_sel lambda1 s) e lev ∧
      s'.lev = lev ∧ s'.h = (e - start_sel lambda1 s) / ((20 * lev : ℕ) : ℝ) := by
  rw [locator_step] at hstep
  rw [hext] at hstep
  simp only [Bool.false_eq_true, if_false] at hstep
  obtain ⟨p, hp, hf⟩ := Option.map_eq_some'.mp hstep
  obtain ⟨h1, h2, h3, h4⟩ :=
    escalate_spec O.weyl xtol (start_sel lambda1 s) s.registry.length escFuel 1 p.1 p.2 hp
  refine ⟨p.1, p.2, h1, hp, ?_, rfl, h3, h4, hf.symm, ?_, ?_⟩
  · rw [h2, hweyl]
  · rw [← hf, locator_after_lev]
  · rw [← hf, locator_after_h]

/-- Concrete ℝ oracle for the C6 witness, whose Weyl estimate is the
genuine `weyl_k` formula on the unit-area unit-perimeter data. -/
noncomputable def OC6 : LocOracles ℝ where
  sines := fun _ => [0]
  minsearch := fun _ _ _ _ => ([], 0)
  weyl := weyl_k 1 1

/-- Concrete initial loop state for the C6 witness. -/
noncomputable def sC6 : LoopSt ℝ := ⟨[], 0, 0, 1, 0, false, 0⟩

lemma OC6_step :
    locator_step OC6 0 0 0 5 1 sC6 =
      some (locator_after OC6 0 0 5 sC6.registry sC6.fevals (start_sel 0 sC6)
        (weyl_k 1 1 1) 1) := by
  have h0 : start_sel 0 sC6 = 0 := by
    rw [start_sel]; simp [sC6]
  have hlen : sC6.registry.length = 0 := rfl
  have hesc : escalate OC6.weyl 0 (start_sel 0 sC6) sC6.registry.length 1 1 =
      some (weyl_k 1 1 1, 1) := by
    rw [escalate]
    rw [if_neg]
    · rfl
    · rw [h0, hlen]
      simp only [OC6]
      rw [weyl_k]
      push_neg
      positivity
  rw [locator_step]
  have hextf : sC6.extend = false := rfl
  rw [hextf]
  simp only [Bool.false_eq_true, if_false, hesc]
  rfl

/-- Witness for C6 at the concrete oracle and state: the escalation
settles at level 1, the bracket end is the Weyl formula at index 1, and
the step is the bracket width over 20. -/
theorem solve_ordered_eigs_bracket_spec_witness :
    ∃ e : ℝ, ∃ lev : ℕ, 1 ≤ lev ∧
      escalate OC6.weyl 0 (start_sel 0 sC6) sC6.registry.length 1 1 = some (e, lev) ∧
      e = weyl_k 1 1 (sC6.registry.length + lev) ∧
      weyl_k 1 1 (sC6.registry.length + lev) =
        ((1 + Real.sqrt (1 ^ 2 + 16 * Real.pi * 1 * ((sC6.registry.length + lev : ℕ) : ℝ))) /
          (2 * 1)) ^ 2 ∧
      ¬ (e + 100000000 * 0 < start_sel 0 sC6) ∧
      (∀ l, 1 ≤ l → l < lev →
        OC6.weyl (sC6.registry.length + l) + 100000000 * 0 < start_sel 0 sC6) ∧
      (locator_after OC6 0 0 5 sC6.registry sC6.fevals (start_sel 0 sC6) (weyl_k 1 1 1) 1 :
          LoopSt ℝ) =
        locator_after OC6 0 0 5 sC6.registry sC6.fevals (start_sel 0 sC6) e lev ∧
      (locator_after OC6 0 0 5 sC6.registry sC6.fevals (start_sel 0 sC6) (weyl_k 1 1 1) 1).lev =
        lev ∧
      (locator_after OC6 0 0 5 sC6.registry sC6.fevals (start_sel 0 sC6) (weyl_k 1 1 1) 1).h =
        (e - start_sel 0 sC6) / ((20 * lev : ℕ) : ℝ) :=
  solve_ordered_eigs_bracket_spec OC6 1 1 0 0 0 5 1 sC6 _ rfl rfl OC6_step

end Pymps
